import Mathlib

/-!
Verification development for the `jinjaapidoc` documentation generator
(`src/jinjaapidoc/gendoc.py`).  The Python source is shallowly embedded:
pure string/path manipulation is translated to Lean functions over
`String`/`List Char`, the directory tree walked by `recurse_tree` is a
data type, dynamic import is an explicit environment
`String → Option PyModule`, jinja template rendering is an abstract
function `String → Ctx → String`, and the output filesystem is a map
from paths to file contents plus a list of existing directories.
-/

set_option maxRecDepth 10000

namespace Jinjaapidoc

/-! ## String primitives (Python `str` operations used by gendoc.py) -/

/-- `s.startswith(p)` on strings. -/
def strStartsWith (s p : String) : Bool := p.data.isPrefixOf s.data

/-- `s.endswith(p)` on strings. -/
def strEndsWith (s p : String) : Bool := p.data.isSuffixOf s.data

/-- Lexicographic comparison of char lists by code point, as Python string `<=`. -/
def charListLe : List Char → List Char → Bool
  | [], _ => true
  | _ :: _, [] => false
  | a :: as, b :: bs =>
    if a.toNat < b.toNat then true
    else if b.toNat < a.toNat then false
    else charListLe as bs

/-- Python string `<=` (code-point lexicographic). -/
def strLe (a b : String) : Bool := charListLe a.data b.data

/-- Stable insertion used to model Python `sorted` (ascending, stable). -/
def pyInsertBy {α : Type} (key : α → String) (x : α) : List α → List α
  | [] => [x]
  | y :: ys => if strLe (key x) (key y) then x :: y :: ys else y :: pyInsertBy key x ys

/-- Python `sorted(l, key=key)`: stable ascending sort. -/
def pySortedBy {α : Type} (key : α → String) (l : List α) : List α :=
  l.foldr (pyInsertBy key) []

/-- Python `sorted(l)` on strings. -/
def pySorted (l : List String) : List String := pySortedBy (fun s => s) l

/-- Python `s.split(c)` on a char list (always returns at least one piece). -/
def splitChar (c : Char) : List Char → List (List Char)
  | [] => [[]]
  | x :: xs =>
    match splitChar c xs with
    | [] => [[x]]
    | h :: t => if x == c then [] :: h :: t else (x :: h) :: t

/-- `c.join(pieces)` for a single-char separator, on char lists. -/
def joinChar (c : Char) : List (List Char) → List Char
  | [] => []
  | [x] => x
  | x :: y :: t => x ++ c :: joinChar c (y :: t)

/-- Python `s.strip('.')`: drop all leading and trailing `'.'` characters. -/
def stripDots (s : String) : String :=
  String.mk (((s.data.dropWhile (fun c => c == '.')).reverse.dropWhile
    (fun c => c == '.')).reverse)

/-- Python `s.lstrip('/')`: drop all leading separators. -/
def lstripSlash (s : String) : String :=
  String.mk (s.data.dropWhile (fun c => c == '/'))

/-- Python `s.replace('/', '.')`. -/
def replaceSlashDot (s : String) : String :=
  String.mk (s.data.map (fun c => if c == '/' then '.' else c))

/-! ## Path primitives (`posixpath` operations used by gendoc.py) -/

/-- `os.path.join(a, b)` for POSIX paths (two-argument form). -/
def pathJoin (a b : String) : String :=
  if strStartsWith b "/" then b
  else if a == "" || strEndsWith a "/" then a ++ b
  else a ++ "/" ++ b

/-- Index of the last occurrence of `c` in `cs`, if any. -/
def lastIdxOf (cs : List Char) (c : Char) : Option Nat :=
  (List.range cs.length).foldl
    (fun acc i => if cs.get? i == some c then some i else acc) none

/-- `os.path.splitext(p)` for POSIX paths: split off the extension at the
last dot of the basename, unless the basename consists only of leading dots. -/
def splitext (p : String) : String × String :=
  let cs := p.data
  match lastIdxOf cs '.' with
  | none => (p, "")
  | some d =>
    let s := match lastIdxOf cs '/' with
      | none => 0
      | some i => i + 1
    if (match lastIdxOf cs '/' with
        | none => true
        | some i => decide (i < d)) then
      if (List.range (d - s)).any (fun k => cs.get? (s + k) != some '.') then
        (String.mk (cs.take d), String.mk (cs.drop d))
      else (p, "")
    else (p, "")

/-- `os.path.normpath(p)` for POSIX paths. -/
def normpath (p : String) : String :=
  if p == "" then "."
  else
    let initialSlashes : Nat :=
      if strStartsWith p "/" then
        (if strStartsWith p "//" && !(strStartsWith p "///") then 2 else 1)
      else 0
    let comps := splitChar '/' p.data
    let newComps := comps.foldl
      (fun acc comp =>
        if comp == [] || comp == ['.'] then acc
        else if comp != ['.', '.'] || (initialSlashes == 0 && acc.isEmpty)
                || (!acc.isEmpty && acc.getLast? == some ['.', '.']) then
          acc ++ [comp]
        else if !acc.isEmpty then acc.dropLast
        else acc) []
    let joined := joinChar '/' newComps
    let res := String.mk (List.replicate initialSlashes '/' ++ joined)
    if res == "" then "." else res

/-- `os.path.abspath(p)` for POSIX paths, with the working directory explicit. -/
def abspath (cwd p : String) : String :=
  if strStartsWith p "/" then normpath p else normpath (pathJoin cwd p)

/-- Last component of `src.split(os.path.sep)`, i.e. `src.split('/')[-1]`. -/
def lastComponent (src : String) : String :=
  String.mk ((splitChar '/' src.data).getLastD [])

/-! ## Constants of gendoc.py -/

def INITPY : String := "__init__.py"

def PY_SUFFIXES : List String := [".py", ".pyx"]

def MODULE_TEMPLATE_NAME : String := "jinjaapi_module.rst"

def PACKAGE_TEMPLATE_NAME : String := "jinjaapi_package.rst"

/-! ## Python runtime model

`get_members`/`get_context` introspect a live module object.  A resolved
module is modelled by the data the code reads from it: its `__name__`, the
`(name, object)` pairs enumerated by `dir(mod)`/`getattr`, whether it has a
`__path__`, and the `(name, ispkg)` pairs `pkgutil.iter_modules` yields for
that path. -/

/-- One attribute of a module, as seen through `inspect`:
the flags record `inspect.isclass`, `inspect.isfunction`, `inspect.ismodule`,
`issubclass(x, BaseException)` (meaningful when `isClass`), and
`x.__module__`. -/
structure PyAttr where
  name : String
  isClass : Bool
  isFunction : Bool
  isModule : Bool
  isBaseExceptionSub : Bool
  moduleName : String
deriving DecidableEq, Repr

/-- A successfully imported module object. -/
structure PyModule where
  name : String
  attrs : List PyAttr
  hasPath : Bool
  pathSubmods : List (String × Bool)
deriving DecidableEq, Repr

/-- `shall_skip(app, module, private)` (gendoc.py lines 385-402). -/
def shall_skip (module : String) (priv : Bool) : Bool :=
  if module != INITPY && strStartsWith module "_" && !priv then true else false

/-- `makename(package, module)` (gendoc.py lines 85-106); `package` is
`None`/a string, both may be empty, and Python truthiness drives the join. -/
def makename (package : Option String) (module : String) : String :=
  match package with
  | some p => if p != "" then (if module != "" then p ++ "." ++ module else p) else module
  | none => module

/-- The `tests` table of `get_members` (gendoc.py lines 184-188), as a
predicate selected by the `typ` string. -/
def memberTest (m : PyModule) (typ : String) (a : PyAttr) : Bool :=
  match typ with
  | "class" => a.isClass && !a.isBaseExceptionSub && (a.moduleName == m.name)
  | "function" => a.isFunction && (a.moduleName == m.name)
  | "exception" => a.isClass && a.isBaseExceptionSub && (a.moduleName == m.name)
  | "data" => !a.isModule && !a.isClass && !a.isFunction
  | "members" => true
  | _ => false

/-- `get_members(app, mod, typ, include_public)` (gendoc.py lines 168-199):
iterate `dir(mod)`, keep the names whose object passes the type test, then
filter the public ones. -/
def get_members (m : PyModule) (typ : String) (include_public : List String) :
    List String × List String :=
  let items := (m.attrs.filter (memberTest m typ)).map (fun a => a.name)
  let pub := items.filter (fun x => include_public.contains x || !(strStartsWith x "_"))
  (pub, items)

/-- `_get_submodules(app, module)` for a module object (gendoc.py lines
202-225): an object without `__path__` yields `[]`, otherwise the
`pkgutil.iter_modules` listing. -/
def underGetSubmodules (m : PyModule) : List (String × Bool) :=
  if m.hasPath then m.pathSubmods else []

/-- `get_submodules(app, module)` (gendoc.py lines 228-240). -/
def get_submodules (m : PyModule) : List String :=
  (underGetSubmodules m).filter (fun p => !p.2) |>.map (fun p => p.1)

/-- `get_subpackages(app, module)` (gendoc.py lines 243-255). -/
def get_subpackages (m : PyModule) : List String :=
  (underGetSubmodules m).filter (fun p => p.2) |>.map (fun p => p.1)

/-! ## Render context -/

/-- A value stored in the template-variable dict built by `get_context`. -/
inductive CtxVal where
  | pynone : CtxVal
  | str : String → CtxVal
  | list : List String → CtxVal
  | pair : List String × List String → CtxVal
  | bool : Bool → CtxVal
deriving DecidableEq, Repr

/-- The template-variable dict, in insertion order. -/
abbrev Ctx : Type := List (String × CtxVal)

/-- Python dict assignment `var[k] = v`: replace in place or append. -/
def dictSet (var : Ctx) (k : String) (v : CtxVal) : Ctx :=
  match var with
  | [] => [(k, v)]
  | (k0, v0) :: rest => if k0 == k then (k, v) :: rest else (k0, v0) :: dictSet rest k v

/-- Dict lookup `var[k]`. -/
def ctxGet (var : Ctx) (k : String) : Option CtxVal :=
  match var with
  | [] => none
  | (k0, v0) :: rest => if k0 == k then some v0 else ctxGet rest k

/-- The package field of the context: Python passes `None` or a string. -/
def ctxOfPackage (package : Option String) : CtxVal :=
  match package with
  | some p => CtxVal.str p
  | none => CtxVal.pynone

/-- `get_context(app, package, module, fullname)` (gendoc.py lines 258-311).
Dynamic import (`import_name`, lines 150-165: `ImportError` is caught and
logged) is the environment `imp`; `imp fullname = none` is the failure case.
Note the failure branch of the source writes the key `'memebers'`. -/
def get_context (imp : String → Option PyModule) (package : Option String)
    (module : String) (fullname : String) : Ctx :=
  let var : Ctx := [("package", ctxOfPackage package),
                    ("module", CtxVal.str module),
                    ("fullname", CtxVal.str fullname)]
  match imp fullname with
  | none =>
    var ++ [("subpkgs", CtxVal.list []), ("submods", CtxVal.list []),
            ("classes", CtxVal.list []), ("allclasses", CtxVal.list []),
            ("exceptions", CtxVal.list []), ("allexceptions", CtxVal.list []),
            ("functions", CtxVal.list []), ("allfunctions", CtxVal.list []),
            ("data", CtxVal.list []), ("alldata", CtxVal.list []),
            ("memebers", CtxVal.list [])]
  | some obj =>
    var ++ [("subpkgs", CtxVal.list (get_subpackages obj)),
            ("submods", CtxVal.list (get_submodules obj)),
            ("classes", CtxVal.list (get_members obj "class" []).1),
            ("allclasses", CtxVal.list (get_members obj "class" []).2),
            ("exceptions", CtxVal.list (get_members obj "exception" []).1),
            ("allexceptions", CtxVal.list (get_members obj "exception" []).2),
            ("functions", CtxVal.list (get_members obj "function" []).1),
            ("allfunctions", CtxVal.list (get_members obj "function" []).2),
            ("data", CtxVal.list (get_members obj "data" []).1),
            ("alldata", CtxVal.list (get_members obj "data" []).2),
            ("members", CtxVal.pair (get_members obj "members" []))]

/-! ## Rendered documents

`create_module_file`/`create_package_file` render a template and hand the
text to `write_file`.  The jinja environment is abstracted as a function
from template name and context to rendered text; a produced document
records which template was used, the dotted name passed to `write_file`,
and the rendered text. -/

inductive DocKind where
  | mod : DocKind
  | pkg : DocKind
deriving DecidableEq, Repr

structure GenDoc where
  kind : DocKind
  name : String
  text : String
deriving DecidableEq, Repr

/-- The abstract jinja environment: template name and context to text. -/
abbrev Render : Type := String → Ctx → String

/-- The abstract import machinery: fullname to imported module, `none` on
`ImportError`. -/
abbrev Importer : Type := String → Option PyModule

/-- `create_module_file(app, env, package, module, ...)` (gendoc.py lines
314-343): build the context, set `ispkg = False`, render the module
template; the document name is `makename(package, module)`. -/
def create_module_file (imp : Importer) (render : Render)
    (package : Option String) (module : String) : GenDoc :=
  let fn := makename package module
  let var := get_context imp package module fn
  let var := dictSet var "ispkg" (CtxVal.bool false)
  ⟨DocKind.mod, fn, render MODULE_TEMPLATE_NAME var⟩

/-- The `var['submods']` list read back out of the context by
`create_package_file`. -/
def ctxSubmods (var : Ctx) : List String :=
  match ctxGet var "submods" with
  | some (CtxVal.list l) => l
  | _ => []

/-- `create_package_file(app, env, root_package, sub_package, private, ...)`
(gendoc.py lines 346-382): build the context, set `ispkg = True`, emit one
module document per non-skipped submodule, then the package document
itself. -/
def create_package_file (imp : Importer) (render : Render) (priv : Bool)
    (root_package : Option String) (sub_package : String) : List GenDoc :=
  let fn := makename root_package sub_package
  let var := get_context imp root_package sub_package fn
  let var := dictSet var "ispkg" (CtxVal.bool true)
  ((ctxSubmods var).filter (fun submod => !shall_skip submod priv)).map
    (fun submod => create_module_file imp render (some fn) submod)
  ++ [⟨DocKind.pkg, fn, render PACKAGE_TEMPLATE_NAME var⟩]

/-! ## Exclusion handling -/

/-- `normalize_excludes(excludes)` (gendoc.py lines 479-481), with the
working directory of `os.path.abspath` explicit. -/
def normalize_excludes (cwd : String) (excludes : List String) : List String :=
  excludes.map (fun exclude => normpath (abspath cwd exclude))

/-- `is_excluded(root, excludes)` (gendoc.py lines 484-494): normalize the
path and compare for equality against each excluded path. -/
def is_excluded (root : String) (excludes : List String) : Bool :=
  let r := normpath root
  excludes.any (fun exclude => r == exclude)

/-! ## The directory tree and `recurse_tree`

The source tree handed to `sphinx.util.osutil.walk` is a finite tree of
directories; each directory holds plain file names and named
subdirectories.  `walk` yields a directory before its children and
recursion follows the caller's in-place pruning of the subdirectory list
(gendoc.py lines 438-458); documents therefore appear in the order the
source writes them.  The model computes each child's result and keeps
exactly those children that survive the source's filter, in the source's
sorted order. -/

mutual
inductive FTree where
  | node : List String → FForest → FTree
deriving DecidableEq, Repr

inductive FForest where
  | nil : FForest
  | cons : String → FTree → FForest → FForest
deriving DecidableEq, Repr
end

/-- Names of the subdirectories of a forest. -/
def forestNames : FForest → List String
  | FForest.nil => []
  | FForest.cons n _ rest => n :: forestNames rest

/-- `os.listdir` of a directory: files and subdirectory names. -/
def listdir : FTree → List String
  | FTree.node files subs => files ++ forestNames subs

/-- The walker's per-run parameters: importer, renderer, the normalized
source path, the root package name, private-inclusion, and the normalized
excluded paths. -/
structure WalkEnv where
  imp : Importer
  render : Render
  src : String
  rootPackage : Option String
  priv : Bool
  excludes : List String

/-- The eligible-source-file filter of gendoc.py lines 440-442:
a known suffix and not excluded, then sorted. -/
def pyFilesOf (excludes : List String) (root : String) (files : List String) :
    List String :=
  pySorted (files.filter (fun f =>
    PY_SUFFIXES.contains (splitext f).2 && !is_excluded (pathJoin root f) excludes))

/-- The subdirectory filter of gendoc.py lines 451-458: drop hidden
directories, drop private directories unless private-inclusion is on, drop
excluded directories. -/
def keepSub (priv : Bool) (excludes : List String) (root : String) (sub : String) :
    Bool :=
  !(if priv then strStartsWith sub "."
    else strStartsWith sub "." || strStartsWith sub "_")
  && !is_excluded (pathJoin root sub) excludes

/-- The package qualification rule of gendoc.py lines 461-462: filtered
subdirectories remain, or more than one eligible file, or the marker file's
path is not skip-filtered. -/
def pkgQualifies (priv : Bool) (root : String) (subNames : List String)
    (pyFiles : List String) : Bool :=
  !subNames.isEmpty || decide (pyFiles.length > 1)
    || !shall_skip (pathJoin root INITPY) priv

/-- Relative dotted name of a package directory (gendoc.py lines 463-464):
`root[len(src):].lstrip(os.path.sep).replace(os.path.sep, '.')`. -/
def subpackageOf (src root : String) : String :=
  replaceSlashDot (lstripSlash (String.mk (root.data.drop src.data.length)))

mutual
/-- The body of `recurse_tree`'s walk loop (gendoc.py lines 438-476) for one
directory: collect eligible files, detect the package marker and move it to
the front, prune non-package directories below the root, filter and sort the
subdirectories, then either emit a package document (when the directory
qualifies) or — at a non-package root — one module document per non-skipped
top-level file.  Returns the documents in write order paired with the
`toplevels` entries. -/
def walkTree (e : WalkEnv) (root : String) :
    FTree → List GenDoc × List String
  | FTree.node files subs =>
    let py0 := pyFilesOf e.excludes root files
    let isPkg := py0.contains INITPY
    let pyFiles := if isPkg then INITPY :: py0.erase INITPY else py0
    if !isPkg && root != e.src then ([], [])
    else
      let childResults := walkForest e root subs
      let kept := pySortedBy (fun p => p.1)
        (childResults.filter (fun p => keepSub e.priv e.excludes root p.1))
      let subNames := kept.map (fun p => p.1)
      let childDocs := (kept.map (fun p => p.2.1)).flatten
      let childTops := (kept.map (fun p => p.2.2)).flatten
      if isPkg then
        if pkgQualifies e.priv root subNames pyFiles then
          let subpackage := subpackageOf e.src root
          (create_package_file e.imp e.render e.priv e.rootPackage subpackage
             ++ childDocs,
           makename e.rootPackage subpackage :: childTops)
        else (childDocs, childTops)
      else
        let mods := pyFiles.filter (fun f => !shall_skip (pathJoin e.src f) e.priv)
        (mods.map (fun f => create_module_file e.imp e.render e.rootPackage
           (splitext f).1) ++ childDocs,
         mods.map (fun f => (splitext f).1) ++ childTops)

/-- Walk every subdirectory of a directory, pairing each name with the
result of walking it rooted at `os.path.join(root, name)`. -/
def walkForest (e : WalkEnv) (root : String) :
    FForest → List (String × (List GenDoc × List String))
  | FForest.nil => []
  | FForest.cons n t rest =>
    (n, walkTree e (pathJoin root n) t) :: walkForest e root rest
end

/-- `recurse_tree(app, env, src, dest, excludes, ...)` (gendoc.py lines
405-476): determine the root package name from the marker file in
`os.listdir(src)`, then walk the tree.  Returns the generated documents in
write order and the `toplevels` list the source returns. -/
def recurse_tree (imp : Importer) (render : Render) (src : String)
    (excludes : List String) (priv : Bool) (t : FTree) :
    List GenDoc × List String :=
  let rootPackage := if (listdir t).contains INITPY
    then some (lastComponent src) else none
  walkTree ⟨imp, render, src, rootPackage, priv, excludes⟩ src t

/-! ## Output filesystem and `write_file`/`generate` -/

/-- The output filesystem: file contents by path, plus existing
directories. -/
structure FS where
  files : String → Option String
  dirs : List String

/-- Point update of the file map. -/
def setFile (g : String → Option String) (k v : String) :
    String → Option String :=
  fun q => if q = k then some v else g q

/-- `write_file(app, name, text, dest, suffix, dryrun, force)` (gendoc.py
lines 109-147): dry-run writes nothing; an existing file without force is
skipped; otherwise the text is written to `dest/name.suffix`. -/
def write_file (name text dest suffix : String) (dryrun force : Bool)
    (fs : FS) : FS :=
  let fname := pathJoin dest (name ++ "." ++ suffix)
  if dryrun then fs
  else if !force && (fs.files fname).isSome then fs
  else { fs with files := setFile fs.files fname text }

/-- The output path `write_file` builds for a document:
`os.path.join(dest, '%s.%s' % (name, suffix))`. -/
def outPath (dest sfx name : String) : String :=
  pathJoin dest (name ++ "." ++ sfx)

/-- The write loop over the documents produced by one run, in write order. -/
def writeDocs (dest sfx : String) (dryrun force : Bool) (docs : List GenDoc)
    (fs : FS) : FS :=
  docs.foldl (fun acc d => write_file d.name d.text dest sfx dryrun force acc) fs

/-- The last text assigned to output path `q` by a document list, if any. -/
def lastVal (dest sfx : String) (docs : List GenDoc) (q : String) :
    Option String :=
  match docs.reverse.find? (fun d => outPath dest sfx d.name == q) with
  | some d => some d.text
  | none => none

/-- `generate(app, src, dest, exclude, followlinks, force, dryrun, private,
suffix, template_dirs)` (gendoc.py lines 497-537): strip dots from the
suffix, create the output directory unless it exists or this is a dry run,
normalize the source path and the excludes, walk the tree and write every
produced document. -/
def generate (imp : Importer) (render : Render) (t : FTree)
    (cwd src dest : String) (exclude : List String)
    (force dryrun priv : Bool) (suffix : String) (fs : FS) : FS :=
  let sfx := stripDots suffix
  let fs1 := if !(fs.dirs.contains dest) && !dryrun
    then { fs with dirs := dest :: fs.dirs } else fs
  let nsrc := normpath (abspath cwd src)
  let excl := normalize_excludes cwd exclude
  let docs := (recurse_tree imp render nsrc excl priv t).1
  writeDocs dest sfx dryrun force docs fs1

/-! ## Concrete fixtures used by counterexamples and witnesses -/

/-- An import environment in which every import fails. -/
def impNone : Importer := fun _ => none

/-- A rendering environment producing empty text. -/
def renderNull : Render := fun _ _ => ""

/-- A root without marker file whose only subdirectory is a package holding
nothing but the marker file. -/
def markerOnlyTree : FTree :=
  FTree.node [] (FForest.cons "pkg" (FTree.node ["__init__.py"] FForest.nil)
    FForest.nil)

/-- A root without marker file holding one top-level module and one package
subdirectory. -/
def containerTree : FTree :=
  FTree.node ["topmod.py"]
    (FForest.cons "pkg" (FTree.node ["__init__.py"] FForest.nil) FForest.nil)

/-- A root without marker file holding an underscore-prefixed module file. -/
def privTopTree : FTree := FTree.node ["_priv.py", "ok.py"] FForest.nil

/-- A class attribute defined in another module (its `__module__` is not the
inspected module's name). -/
def foreignClassAttr : PyAttr :=
  { name := "C", isClass := true, isFunction := false, isModule := false,
    isBaseExceptionSub := false, moduleName := "othermod" }

/-- A module whose single accessible attribute is a class imported from
elsewhere. -/
def foreignClassModule : PyModule :=
  { name := "m", attrs := [foreignClassAttr], hasPath := false,
    pathSubmods := [] }

/-- An output filesystem holding one file. -/
def fsOne : FS :=
  { files := fun q => if q = "/out/a.rst" then some "old" else none,
    dirs := ["/out"] }

/-! ## Helper lemmas -/

theorem FS_ext (a b : FS) (hf : a.files = b.files) (hd : a.dirs = b.dirs) :
    a = b := by
  cases a; cases b; simp_all

theorem isPrefixOf_single (c : Char) (l : List Char) :
    [c].isPrefixOf l = (match l.head? with
      | some x => c == x
      | none => false) := by
  cases l with
  | nil => rfl
  | cons x xs => simp [List.isPrefixOf]

theorem dropWhile_head_not (p : Char → Bool) :
    ∀ (l : List Char) (c : Char), (l.dropWhile p).head? = some c → p c = false := by
  intro l
  induction l with
  | nil => intro c h; simp [List.dropWhile] at h
  | cons x xs ih =>
    intro c h
    by_cases hx : p x = true
    · rw [List.dropWhile_cons_of_pos hx] at h
      exact ih c h
    · rw [List.dropWhile_cons_of_neg hx] at h
      simp at h
      rw [← h]
      exact eq_false_of_ne_true hx

theorem data_startsWith_slash (root : String)
    (h : strStartsWith root "/" = true) :
    ∃ rest, root.data = '/' :: rest := by
  unfold strStartsWith at h
  rw [show ("/" : String).data = ['/'] from rfl, isPrefixOf_single] at h
  cases hd : root.data with
  | nil => rw [hd] at h; simp at h
  | cons x xs =>
    rw [hd] at h
    simp at h
    exact ⟨xs, by rw [h]⟩

theorem append_not_underscore (root x : String) (rest : List Char)
    (hr : root.data = '/' :: rest) :
    strStartsWith (root ++ x) "_" = false := by
  unfold strStartsWith
  rw [show ("_" : String).data = ['_'] from rfl, String.data_append, hr,
    isPrefixOf_single]
  simp

theorem pathJoin_abs_not_underscore (root f : String)
    (hroot : strStartsWith root "/" = true)
    (hf : strStartsWith f "/" = false) :
    strStartsWith (pathJoin root f) "_" = false := by
  obtain ⟨rest, hr⟩ := data_startsWith_slash root hroot
  have hne : (root == "") = false := by
    rw [beq_eq_false_iff_ne]
    intro he
    rw [he] at hr
    simp at hr
  unfold pathJoin
  by_cases hend : strEndsWith root "/" = true
  · simp only [hf, hne, hend, Bool.false_eq_true, if_false, Bool.false_or,
      if_true]
    exact append_not_underscore root f rest hr
  · rw [Bool.not_eq_true] at hend
    simp only [hf, hne, hend, Bool.false_eq_true, if_false, Bool.false_or]
    exact append_not_underscore (root ++ "/") f (rest ++ ['/'])
      (by rw [String.data_append, hr]; rfl)

theorem write_file_dryrun (name text dest sfx : String) (force : Bool)
    (fs : FS) : write_file name text dest sfx true force fs = fs := rfl

theorem write_file_force (name text dest sfx : String) (fs : FS) :
    write_file name text dest sfx false true fs =
      { fs with files := setFile fs.files (outPath dest sfx name) text } := rfl

theorem write_file_dirs (name text dest sfx : String) (dr force : Bool)
    (fs : FS) : (write_file name text dest sfx dr force fs).dirs = fs.dirs := by
  cases dr with
  | true => rfl
  | false =>
    unfold write_file
    cases h : (!force && (fs.files (pathJoin dest (name ++ "." ++ sfx))).isSome)
      with
    | true => simp [h]
    | false => simp [h]

theorem writeDocs_cons (dest sfx : String) (dr force : Bool) (d : GenDoc)
    (rest : List GenDoc) (fs : FS) :
    writeDocs dest sfx dr force (d :: rest) fs =
      writeDocs dest sfx dr force rest
        (write_file d.name d.text dest sfx dr force fs) := rfl

theorem writeDocs_dryrun (dest sfx : String) (force : Bool) :
    ∀ (docs : List GenDoc) (fs : FS),
      writeDocs dest sfx true force docs fs = fs := by
  intro docs
  induction docs with
  | nil => intro fs; rfl
  | cons d rest ih =>
    intro fs
    rw [writeDocs_cons, write_file_dryrun]
    exact ih fs

theorem writeDocs_dirs (dest sfx : String) (dr force : Bool) :
    ∀ (docs : List GenDoc) (fs : FS),
      (writeDocs dest sfx dr force docs fs).dirs = fs.dirs := by
  intro docs
  induction docs with
  | nil => intro fs; rfl
  | cons d rest ih =>
    intro fs
    rw [writeDocs_cons, ih, write_file_dirs]

theorem lastVal_nil (dest sfx : String) (q : String) :
    lastVal dest sfx [] q = none := rfl

theorem lastVal_cons (dest sfx : String) (d : GenDoc) (rest : List GenDoc)
    (q : String) :
    lastVal dest sfx (d :: rest) q =
      (match lastVal dest sfx rest q with
      | some v => some v
      | none => if (outPath dest sfx d.name == q) = true then some d.text
                else none) := by
  unfold lastVal
  rw [List.reverse_cons, List.find?_append]
  cases h : rest.reverse.find? (fun d0 => outPath dest sfx d0.name == q) with
  | none =>
    simp only [h, Option.or]
    cases hp : (outPath dest sfx d.name == q) with
    | true => simp [List.find?, hp]
    | false => simp [List.find?, hp]
  | some d1 => simp [h, Option.or]

theorem writeDocs_force_files :
    ∀ (docs : List GenDoc) (dest sfx : String) (fs : FS) (q : String),
      (writeDocs dest sfx false true docs fs).files q =
        (match lastVal dest sfx docs q with
        | some v => some v
        | none => fs.files q) := by
  intro docs
  induction docs with
  | nil => intro dest sfx fs q; rfl
  | cons d rest ih =>
    intro dest sfx fs q
    rw [writeDocs_cons, write_file_force, ih, lastVal_cons]
    cases h : lastVal dest sfx rest q with
    | some v => simp
    | none =>
      simp only []
      cases hp : (outPath dest sfx d.name == q) with
      | true =>
        have : q = outPath dest sfx d.name := (beq_iff_eq.mp hp).symm
        simp [setFile, this]
      | false =>
        have : q ≠ outPath dest sfx d.name := fun he => by
          rw [he] at hp; simp at hp
        simp [setFile, this]

theorem writeDocs_force_idem (docs : List GenDoc) (dest sfx : String)
    (fs : FS) :
    writeDocs dest sfx false true docs (writeDocs dest sfx false true docs fs)
      = writeDocs dest sfx false true docs fs := by
  apply FS_ext
  · funext q
    rw [writeDocs_force_files, writeDocs_force_files]
    cases h : lastVal dest sfx docs q with
    | some v => simp
    | none => simp [writeDocs_force_files, h]
  · rw [writeDocs_dirs]

theorem generate_dryrun (imp : Importer) (render : Render) (t : FTree)
    (cwd src dest : String) (exclude : List String) (force priv : Bool)
    (suffix : String) (fs : FS) :
    generate imp render t cwd src dest exclude force true priv suffix fs = fs := by
  unfold generate
  simp only [Bool.not_true, Bool.and_false, Bool.false_eq_true, if_false]
  exact writeDocs_dryrun _ _ _ _ _

theorem generate_step (imp : Importer) (render : Render) (t : FTree)
    (cwd src dest : String) (exclude : List String) (priv : Bool)
    (suffix : String) (fs : FS) :
    generate imp render t cwd src dest exclude true false priv suffix fs =
      writeDocs dest (stripDots suffix) false true
        ((recurse_tree imp render (normpath (abspath cwd src))
           (normalize_excludes cwd exclude) priv t).1)
        (if (fs.dirs.contains dest) = false
         then { fs with dirs := dest :: fs.dirs } else fs) := by
  unfold generate
  simp only [Bool.not_false, Bool.and_true, Bool.not_eq_true']

theorem beq_symm_false (a b : Char) (h : (a == b) = false) : (b == a) = false := by
  rw [beq_eq_false_iff_ne] at h ⊢
  exact fun he => h he.symm

theorem stripDots_no_lead (s : String) :
    strStartsWith (stripDots s) "." = false := by
  unfold stripDots strStartsWith
  rw [show ("." : String).data = ['.'] from rfl, isPrefixOf_single]
  set p : Char → Bool := fun c => c == '.' with hp
  set l1 := s.data.dropWhile p with hl1
  obtain ⟨t, ht⟩ :=
    (List.dropWhile_suffix p : l1.reverse.dropWhile p <:+ l1.reverse)
  have hdecomp : l1 = (l1.reverse.dropWhile p).reverse ++ t.reverse := by
    have := congrArg List.reverse ht
    rw [List.reverse_append, List.reverse_reverse] at this
    exact this.symm
  cases htr : (l1.reverse.dropWhile p).reverse with
  | nil => rfl
  | cons c cs =>
    have hhead : l1.head? = some c := by
      rw [hdecomp, htr]; rfl
    have hc : p c = false := dropWhile_head_not p s.data c hhead
    rw [List.head?_cons]
    exact beq_symm_false c '.' hc

theorem stripDots_no_trail (s : String) :
    strEndsWith (stripDots s) "." = false := by
  unfold stripDots strEndsWith
  show List.isPrefixOf (("." : String).data.reverse) _ = false
  rw [show ("." : String).data.reverse = ['.'] from rfl, List.reverse_reverse,
    isPrefixOf_single]
  cases hdr : (s.data.dropWhile (fun c => c == '.')).reverse.dropWhile
      (fun c => c == '.') with
  | nil => rfl
  | cons c cs =>
    have hc : (fun c => c == '.' : Char → Bool) c = false :=
      dropWhile_head_not _ _ c (by rw [hdr]; rfl)
    rw [List.head?_cons]
    exact beq_symm_false c '.' hc

/-! ## Claim theorems -/

/-- C1, counterexample: for the package directory `/src/pkg` that contains
only the marker file and has no remaining subdirectories, the qualification
rule evaluates **true** (not false as claimed) and a package document **is**
generated, because `shall_skip` receives the joined absolute path of the
marker file. -/
theorem C1_counterexample :
    pkgQualifies false "/src/pkg" [] [INITPY] = true
    ∧ (recurse_tree impNone renderNull "/src" [] false markerOnlyTree).1
        = [⟨DocKind.pkg, "pkg", ""⟩] := by
  constructor
  · decide
  · decide

/-- C1, amended: for every directory with an absolute root path that holds
only the marker file and has no remaining subdirectories, the qualification
rule evaluates true (the marker path is never skip-filtered, since the
joined path neither equals `__init__.py` nor starts with an underscore), and
in particular the walk over a marker-only package emits its package
document. -/
theorem C1_amended (priv : Bool) (root : String)
    (h : strStartsWith root "/" = true) :
    pkgQualifies priv root [] [INITPY] = true
    ∧ (recurse_tree impNone renderNull "/src" [] priv markerOnlyTree).1.contains
        ⟨DocKind.pkg, "pkg", ""⟩ = true := by
  constructor
  · have hu : strStartsWith (pathJoin root INITPY) "_" = false :=
      pathJoin_abs_not_underscore root INITPY h (by decide)
    have hs : shall_skip (pathJoin root INITPY) priv = false := by
      unfold shall_skip
      rw [hu]
      simp
    unfold pkgQualifies
    rw [hs]
    simp
  · cases priv with
    | true => decide
    | false => decide

theorem C1_amended_witness :
    pkgQualifies false "/src/pkg" [] [INITPY] = true
    ∧ (recurse_tree impNone renderNull "/src" [] false markerOnlyTree).1.contains
        ⟨DocKind.pkg, "pkg", ""⟩ = true :=
  C1_amended false "/src/pkg" (by decide)

/-- C2, counterexample: with a root lacking the marker file that holds one
top-level module and one package subdirectory, the walk recurses into the
subdirectory and generates a package document for it — documents are
produced for content of a subdirectory of the root, contradicting the
claimed non-recursion. -/
theorem C2_counterexample :
    (recurse_tree impNone renderNull "/src" [] false containerTree).1
      = [⟨DocKind.mod, "topmod", ""⟩, ⟨DocKind.pkg, "pkg", ""⟩] := by
  decide

/-- C2, amended: when the root lacks the marker file the walk still recurses
into the filtered subdirectories; what holds is that every visited
**non-package** directory other than the root is pruned: it contributes no
documents and no toplevels, and nothing below it is visited.  Package
subdirectories, by contrast, are documented (see the counterexample). -/
theorem C2_amended (e : WalkEnv) (root : String) (files : List String)
    (subs : FForest) (hroot : root ≠ e.src)
    (hpkg : (pyFilesOf e.excludes root files).contains INITPY = false) :
    walkTree e root (FTree.node files subs) = ([], []) := by
  rw [walkTree]
  simp [hpkg, bne_iff_ne, hroot]
  intro hm
  exact absurd hm (by simpa using hpkg)

theorem C2_amended_witness :
    walkTree ⟨impNone, renderNull, "/src", none, false, []⟩ "/src/plain"
      (FTree.node ["mod.py"] FForest.nil) = ([], []) :=
  C2_amended ⟨impNone, renderNull, "/src", none, false, []⟩ "/src/plain"
    ["mod.py"] FForest.nil (by decide) (by decide)

/-- C3: when the import of the fully-qualified name fails, the context
builder returns (it cannot raise in this model) a context whose classified
member lists are all present and empty — except that the key `'members'` is
absent: the failure branch of the source writes the misspelled key
`'memebers'` instead (gendoc.py line 299), contradicting the claim and the
function's own docstring. -/
theorem C3_members_key_missing :
    ctxGet (get_context impNone (some "pkg") "mod" "pkg.mod") "members" = none
    ∧ ctxGet (get_context impNone (some "pkg") "mod" "pkg.mod") "memebers"
        = some (CtxVal.list [])
    ∧ (["subpkgs", "submods", "classes", "allclasses", "exceptions",
        "allexceptions", "functions", "allfunctions", "data", "alldata"].all
        (fun k => ctxGet (get_context impNone (some "pkg") "mod" "pkg.mod") k
          == some (CtxVal.list []))) = true := by
  refine ⟨by decide, by decide, by decide⟩

/-- C4, counterexample: a top-level module file of a non-package root whose
name starts with an underscore is **not** skipped with private-inclusion
disabled — `recurse_tree` hands `shall_skip` the joined absolute path, which
does not start with an underscore — and a module document is generated for
it, contradicting the claimed skip. -/
theorem C4_counterexample :
    strStartsWith "_priv.py" "_" = true
    ∧ shall_skip (pathJoin "/src" "_priv.py") false = false
    ∧ (recurse_tree impNone renderNull "/src" [] false privTopTree).1.contains
        ⟨DocKind.mod, "_priv", ""⟩ = true := by
  refine ⟨by decide, by decide, by decide⟩

/-- C4, amended: `shall_skip` itself implements the claimed rule on its
argument (skip exactly when the argument differs from the marker name,
starts with an underscore, and private-inclusion is off; the marker name is
never skipped) — and submodules of a package are tested with their bare
names, so they follow the rule; but top-level module files are tested with
their absolute joined paths, which never start with an underscore, so they
are never skipped by this rule. -/
theorem C4_amended (m : String) (priv : Bool) (root f : String) :
    (shall_skip m priv = true
      ↔ (m ≠ INITPY ∧ strStartsWith m "_" = true ∧ priv = false))
    ∧ shall_skip INITPY priv = false
    ∧ (strStartsWith root "/" = true → strStartsWith f "/" = false →
        shall_skip (pathJoin root f) priv = false) := by
  refine ⟨?_, ?_, ?_⟩
  · unfold shall_skip
    by_cases h : (m != INITPY && strStartsWith m "_" && !priv) = true
    · simp only [h, if_true, true_iff]
      simp only [Bool.and_eq_true, bne_iff_ne, Bool.not_eq_true'] at h
      exact ⟨h.1.1, h.1.2, h.2⟩
    · rw [Bool.not_eq_true] at h
      simp only [h, Bool.false_eq_true, if_false, false_iff]
      intro ⟨h1, h2, h3⟩
      rw [Bool.and_eq_false_iff, Bool.and_eq_false_iff] at h
      rcases h with (h | h) | h
      · exact absurd h1 (by simpa using h)
      · exact absurd h2 (by simp [h])
      · exact absurd h3 (by simpa using h)
  · unfold shall_skip
    simp
  · intro hroot hf
    have hu : strStartsWith (pathJoin root f) "_" = false :=
      pathJoin_abs_not_underscore root f hroot hf
    unfold shall_skip
    rw [hu]
    simp

theorem C4_amended_witness :
    shall_skip (pathJoin "/src" "_priv.py") false = false :=
  (C4_amended "_x" false "/src" "_priv.py").2.2 (by decide) (by decide)

/-- C5, counterexample: an accessible attribute that is a class and not a
subtype of the base exception type, but whose `__module__` is not the
inspected module's name, is **not** placed in the `'class'` category — the
code imposes the further condition `x.__module__ == mod.__name__`,
contradicting "with no further condition on the attribute". -/
theorem C5_counterexample :
    foreignClassAttr.isClass = true
    ∧ foreignClassAttr.isBaseExceptionSub = false
    ∧ foreignClassAttr ∈ foreignClassModule.attrs
    ∧ (get_members foreignClassModule "class" []).2 = [] := by
  refine ⟨rfl, rfl, by decide, by decide⟩

/-- C5, amended: an attribute is placed in the `'class'` category exactly
when it is a class, not a subtype of the base exception type, **and its
`__module__` equals the inspected module's name**; in `'exception'` exactly
when it is a class, a subtype of the base exception type, and its
`__module__` matches; in `'function'` exactly when it is a plain function
and its `__module__` matches; only `'data'` carries no module condition. -/
theorem C5_amended (m : PyModule) (n : String) :
    (n ∈ (get_members m "class" []).2
      ↔ ∃ a ∈ m.attrs, a.name = n ∧ a.isClass = true
          ∧ a.isBaseExceptionSub = false ∧ a.moduleName = m.name)
    ∧ (n ∈ (get_members m "exception" []).2
      ↔ ∃ a ∈ m.attrs, a.name = n ∧ a.isClass = true
          ∧ a.isBaseExceptionSub = true ∧ a.moduleName = m.name)
    ∧ (n ∈ (get_members m "function" []).2
      ↔ ∃ a ∈ m.attrs, a.name = n ∧ a.isFunction = true
          ∧ a.moduleName = m.name)
    ∧ (n ∈ (get_members m "data" []).2
      ↔ ∃ a ∈ m.attrs, a.name = n ∧ a.isModule = false ∧ a.isClass = false
          ∧ a.isFunction = false) := by
  refine ⟨?_, ?_, ?_, ?_⟩ <;>
  · unfold get_members memberTest
    simp only [List.mem_map, List.mem_filter, Bool.and_eq_true,
      Bool.not_eq_true', beq_iff_eq]
    constructor
    · rintro ⟨a, ⟨ha, hcond⟩, hname⟩
      exact ⟨a, ha, hname, by tauto⟩
    · rintro ⟨a, ha, hname, hcond⟩
      exact ⟨a, ⟨ha, by tauto⟩, hname⟩

/-- C6: the three-state write policy.  A dry run leaves the filesystem
(files and directories) entirely unchanged at the `generate` level and the
`write_file` level; without dry-run, an existing target with force disabled
is left unchanged; otherwise — force enabled, or the target absent — the
rendered text is written at `{output_dir}/{dotted_name}.{suffix}`,
overwriting any existing file. -/
theorem C6_write_policy (imp : Importer) (render : Render) (t : FTree)
    (cwd src : String) (exclude : List String) (priv force : Bool)
    (dest suffix name text : String) (fs : FS) :
    (generate imp render t cwd src dest exclude force true priv suffix fs = fs)
    ∧ (write_file name text dest suffix true force fs = fs)
    ∧ ((fs.files (outPath dest suffix name)).isSome = true →
        write_file name text dest suffix false false fs = fs)
    ∧ ((write_file name text dest suffix false true fs).files
        (outPath dest suffix name) = some text)
    ∧ ((fs.files (outPath dest suffix name)).isSome = false →
        (write_file name text dest suffix false false fs).files
          (outPath dest suffix name) = some text) := by
  refine ⟨generate_dryrun imp render t cwd src dest exclude force priv suffix fs,
    rfl, ?_, ?_, ?_⟩
  · intro h
    unfold write_file
    simp [outPath] at h
    simp [h]
  · rw [write_file_force]
    simp [setFile]
  · intro h
    unfold write_file
    simp [outPath] at h
    simp [h, setFile, outPath]

theorem C6_write_policy_witness :
    (write_file "a" "new" "/out" "rst" false false fsOne = fsOne)
    ∧ ((write_file "a" "new" "/out" "rst" false true fsOne).files
        (outPath "/out" "rst" "a") = some "new") :=
  ⟨(C6_write_policy impNone renderNull markerOnlyTree "/" "/src" [] false false
      "/out" "rst" "a" "new" fsOne).2.2.1 (by decide),
   (C6_write_policy impNone renderNull markerOnlyTree "/" "/src" [] false true
      "/out" "rst" "a" "new" fsOne).2.2.2.1⟩

/-- C7: path exclusion matches only on exact normalized-path equality — a
path is excluded precisely when its normalized form equals one of the
excluded paths — and in particular, with excluded path `/a/foo`, the sibling
`/a/foobar` is not excluded. -/
theorem C7_exact_exclusion (root : String) (excludes : List String) :
    (is_excluded root excludes = true ↔ ∃ e ∈ excludes, normpath root = e)
    ∧ is_excluded "/a/foobar" (normalize_excludes "/" ["/a/foo"]) = false := by
  constructor
  · unfold is_excluded
    simp [List.any_eq_true]
  · decide

theorem C7_exact_exclusion_witness :
    is_excluded "/a/sub/.." (normalize_excludes "/" ["/a"]) = true :=
  (C7_exact_exclusion "/a/sub/.." (normalize_excludes "/" ["/a"])).1.mpr
    ⟨"/a", by decide, by decide⟩

/-- C8: generation is idempotent under force — running `generate` a second
time on the same source tree and options with force enabled reproduces the
exact output filesystem of the first run (byte-identical content in every
output file). -/
theorem C8_generate_idempotent (imp : Importer) (render : Render) (t : FTree)
    (cwd src dest : String) (exclude : List String) (dryrun priv : Bool)
    (suffix : String) (fs : FS) :
    generate imp render t cwd src dest exclude true dryrun priv suffix
      (generate imp render t cwd src dest exclude true dryrun priv suffix fs)
    = generate imp render t cwd src dest exclude true dryrun priv suffix fs := by
  cases dryrun with
  | true => rw [generate_dryrun, generate_dryrun]
  | false =>
    rw [generate_step, generate_step]
    set sfx := stripDots suffix with hsfx
    set D := (recurse_tree imp render (normpath (abspath cwd src))
      (normalize_excludes cwd exclude) priv t).1 with hD
    set fs1 := if (fs.dirs.contains dest) = false
      then { fs with dirs := dest :: fs.dirs } else fs with hfs1
    have hd1 : ((writeDocs dest sfx false true D fs1).dirs.contains dest)
        = true := by
      rw [writeDocs_dirs]
      by_cases h : (fs.dirs.contains dest) = false
      · rw [hfs1, if_pos h]
        simp
      · rw [hfs1, if_neg h]
        rw [Bool.not_eq_false] at h
        exact h
    rw [if_neg (by rw [hd1]; simp)]
    exact writeDocs_force_idem D dest sfx fs1

/-- C9: for every module, category and whitelist, the public list returned
by `get_members` is exactly the filter of the all-members list keeping names
that are whitelisted or do not start with an underscore; it is therefore a
sublist (same relative order, no additions) of the all list, and every
public name occurs in the all list. -/
theorem C9_public_sublist (m : PyModule) (typ : String) (ip : List String) :
    (get_members m typ ip).1 = ((get_members m typ ip).2).filter
        (fun x => ip.contains x || !(strStartsWith x "_"))
    ∧ List.Sublist (get_members m typ ip).1 (get_members m typ ip).2
    ∧ (∀ x, x ∈ (get_members m typ ip).1 → x ∈ (get_members m typ ip).2) := by
  refine ⟨rfl, List.filter_sublist _, ?_⟩
  intro x hx
  exact List.mem_of_mem_filter hx

theorem C9_public_sublist_witness :
    "C" ∈ (get_members foreignClassModule "members" []).2 :=
  (C9_public_sublist foreignClassModule "members" []).2.2 "C" (by decide)

/-- C10: `generate` strips all leading and trailing dots from the suffix
before any file name is built — the stripped suffix neither starts nor ends
with a dot — so the suffix options `'.rst'` and `'rst'` produce identical
runs, and in particular every document's output path is the same
`{dest}/{name}.rst`. -/
theorem C10_suffix_strip (imp : Importer) (render : Render) (t : FTree)
    (cwd src dest : String) (exclude : List String)
    (force dryrun priv : Bool) (fs : FS) :
    (generate imp render t cwd src dest exclude force dryrun priv ".rst" fs
      = generate imp render t cwd src dest exclude force dryrun priv "rst" fs)
    ∧ (∀ s : String, strStartsWith (stripDots s) "." = false
        ∧ strEndsWith (stripDots s) "." = false)
    ∧ (∀ d name : String, outPath d (stripDots ".rst") name
        = pathJoin d (name ++ ".rst")) := by
  refine ⟨?_, ?_, ?_⟩
  · unfold generate
    rw [show stripDots ".rst" = stripDots "rst" from by decide]
  · intro s
    exact ⟨stripDots_no_lead s, stripDots_no_trail s⟩
  · intro d name
    rw [show stripDots ".rst" = "rst" from by decide]
    unfold outPath
    rw [String.append_assoc, show ("." ++ "rst" : String) = ".rst" from rfl]

end Jinjaapidoc
